import Mathlib

/-!
Verification of the deterministic control layer of the multi-agent interview
coach: the structured-call subsystem (`app/llm/retry.py`,
`app/llm/json_parser.py`), the policy primitives
(`app/policies/adaptability.py`, `router.py`, `question_bank.py`,
`context_guard.py`, `topic_manager.py`), the memory controls
(`app/memory/controls.py`, `app/memory/skills.py`) and the question-planning
slice of `policy_update_node` (`app/graph/nodes.py`).  Each Lean definition
is a shallow embedding of the Python function of the same name.
-/

namespace Coach

/-! ### Structured-call subsystem (`app/llm/retry.py`, `app/llm/json_parser.py`)

The LLM capability is modelled as a scripted text source `cap : Nat → String`
(the reply to the i-th transport call overall), and JSON extraction plus
schema validation (`parse_json_with_schema`, generic in the schema) as
`parse : String → Option V` (`none` models a raised
`JsonSchemaValidationError`).  `CallState` counts transport calls and, of
those, how many were issued by `repair_to_valid_json`. -/

structure CallState where
  count : Nat
  repairCount : Nat
  deriving Repr, DecidableEq

/-- One transport call (`llm.invoke`): the scripted reply and the new state. -/
def invokeLLM (cap : Nat → String) (s : CallState) : String × CallState :=
  (cap s.count, { s with count := s.count + 1 })

/-- One repair call (`repair_to_valid_json`): a transport call counted as a
repair round-trip. -/
def invokeRepair (cap : Nat → String) (s : CallState) : String × CallState :=
  (cap s.count, { s with count := s.count + 1, repairCount := s.repairCount + 1 })

/-- `call_llm_for_json` (`app/llm/json_parser.py`): loop over `max_attempts`
attempts; each attempt invokes the capability and parses; on parse failure at
the last attempt it breaks; otherwise it issues one repair call, re-parses,
and on a second failure breaks out of the loop (it does not continue with the
remaining attempts).  `none` models the raised `JsonSchemaValidationError`. -/
def call_llm_for_json {V : Type} (cap : Nat → String) (parse : String → Option V) :
    Nat → CallState → Option V × CallState
  | 0, s => (none, s)
  | remaining + 1, s =>
    let (content, s₁) := invokeLLM cap s
    match parse content with
    | some v => (some v, s₁)
    | none =>
      if remaining = 0 then (none, s₁)
      else
        let (repaired, s₂) := invokeRepair cap s₁
        match parse repaired with
        | some v => (some v, s₂)
        | none => (none, s₂)

/-- `safe_call_for_json` (`app/llm/retry.py`): up to `max_attempts` rounds,
each one a fresh `call_llm_for_json(..., max_attempts=1)`; a raised
`JsonSchemaValidationError` (or transport error) is caught and the loop
continues; exhaustion models the raised `LLMCallError`. -/
def safe_call_for_json {V : Type} (cap : Nat → String) (parse : String → Option V) :
    Nat → CallState → Option V × CallState
  | 0, s => (none, s)
  | attemptsLeft + 1, s =>
    match call_llm_for_json cap parse 1 s with
    | (some v, s') => (some v, s')
    | (none, s') => safe_call_for_json cap parse attemptsLeft s'

/-! ### Difficulty adaptation (`app/policies/adaptability.py`) -/

/-- `apply_difficulty`: Python `int(difficulty or 1)` maps a zero base to 1;
`int(delta or 0)` is the identity on integers; the sum is clamped with
`max(1, min(5, new_val))`. -/
def apply_difficulty (difficulty : Int) (delta : Int) : Int :=
  let base : Int := if difficulty = 0 then 1 else difficulty
  let delta_val : Int := if delta = 0 then 0 else delta
  let new_val := base + delta_val
  max 1 (min 5 new_val)

/-! ### Concrete scenario inputs for the structured-call subsystem -/

/-- A capability that always replies with completely non-JSON text. -/
def nonJsonCap : Nat → String := fun _ => "plain text, no braces at all"

/-- Extraction+validation on completely non-JSON text: every strategy of
`_extract_json_substring` fails (no brace-delimited span parses), so
`parse_json_with_schema` always raises. -/
def neverParse : String → Option Unit := fun _ => none

lemma call_llm_one_repairCount {V : Type} (cap : Nat → String)
    (parse : String → Option V) (s : CallState) :
    (call_llm_for_json cap parse 1 s).2.repairCount = s.repairCount := by
  simp only [call_llm_for_json, invokeLLM]
  cases h : parse (cap s.count) <;> simp [h]

lemma safe_call_never_repairs {V : Type} (cap : Nat → String)
    (parse : String → Option V) :
    ∀ (n : Nat) (s : CallState),
      (safe_call_for_json cap parse n s).2.repairCount = s.repairCount := by
  intro n
  induction n with
  | zero => intro s; rfl
  | succ k ih =>
    intro s
    simp only [safe_call_for_json]
    rcases hc : call_llm_for_json cap parse 1 s with ⟨v, s'⟩
    have hrep : s'.repairCount = s.repairCount := by
      have := call_llm_one_repairCount cap parse s
      rw [hc] at this
      exact this
    cases v with
    | some v => simpa using hrep
    | none => simpa [ih s'] using hrep

/-! ### Routing and action-type policies (`app/policies/router.py`,
`app/policies/adaptability.py`, `app/graph/nodes.py`) -/

/-- `RobustnessDetection` (`app/policies/robustness.py`). -/
structure RobustnessDetection where
  off_topic : Bool
  role_reversal : Bool
  hallucination_claim : Bool
  evasive : Bool
  reason : String
  candidate_question : Option String
  suspicious_claim : Option String

/-- `choose_route` (`app/policies/router.py`). -/
def choose_route (stop_requested : Bool) (det : RobustnessDetection) : String :=
  if stop_requested then "final"
  else if det.role_reversal then "answer_candidate"
  else if det.hallucination_claim then "hallucination"
  else if det.off_topic then "refocus"
  else "normal"

/-- A JSON primitive inside the free-form `answer_quality` dict: a string,
an integer, or a boolean (Python `bool` compares equal to `0`/`1`). -/
inductive JVal where
  | jstr (v : String)
  | jint (v : Int)
  | jbool (v : Bool)
  deriving DecidableEq

/-- Python `correctness in ("wrong", "low", "incorrect")`: only string values
compare equal to those strings. -/
def correctness_is_low : Option JVal → Bool
  | some (JVal.jstr v) => v == "wrong" || v == "low" || v == "incorrect"
  | _ => false

/-- Python `confidence in ("low", 0, 1)`: the string "low", the integers 0 and
1, and (because `True == 1` and `False == 0` in Python) either boolean. -/
def confidence_is_low : Option JVal → Bool
  | some (JVal.jstr v) => v == "low"
  | some (JVal.jint n) => n == 0 || n == 1
  | some (JVal.jbool _) => true
  | none => false

/-- Python `correctness in ("partial", "mixed")`. -/
def correctness_is_partial : Option JVal → Bool
  | some (JVal.jstr v) => v == "partial" || v == "mixed"
  | _ => false

/-- The schema-level robustness flags block (`RobustnessFlags` in
`app/llm/schemas.py`); a missing or non-dict block in `decide_action_type`
behaves as all-false flags. -/
structure RobustnessFlags where
  off_topic : Bool
  role_reversal : Bool
  hallucination_claim : Bool
  evasive : Bool

/-- The slices of the observer JSON read by the policy primitives:
`robustness` flags, `answer_quality.correctness` / `.confidence`
(free-form JSON primitives), `difficulty_delta`, and the soft topic of
`next_action`. -/
structure ObserverJson where
  robustness : RobustnessFlags
  correctness : Option JVal
  confidence : Option JVal
  difficulty_delta : Int
  next_action_topic : Option String

/-- `decide_action_type` (`app/policies/adaptability.py`). -/
def decide_action_type (observer_json : ObserverJson) (prev_action_type : Option String) : String :=
  if observer_json.robustness.off_topic then "refocus"
  else if observer_json.robustness.role_reversal then "answer_candidate"
  else if correctness_is_low observer_json.correctness
       || confidence_is_low observer_json.confidence then "simplify"
  else if correctness_is_partial observer_json.correctness then "clarify"
  else if prev_action_type == some "simplify" then "hint"
  else "ask"

/-- The action-type decision of `policy_update_node` (`app/graph/nodes.py`):
`route = state.get("route") or "normal"`; a route in
{answer_candidate, refocus, hallucination} is recorded as the action type,
otherwise `decide_action_type` decides. -/
def policy_action_type (state_route : Option String) (observer_json : ObserverJson)
    (prev_action_type : Option String) : String :=
  let route := match state_route with
    | none => "normal"
    | some r => if r = "" then "normal" else r
  if route = "answer_candidate" || route = "refocus" || route = "hallucination" then route
  else decide_action_type observer_json prev_action_type

/-- C1: the spec's repair behaviour holds of the inner `call_llm_for_json`
(with attempts remaining, exactly one repair round-trip on an extraction or
validation failure) — but the subsystem entry point `safe_call_for_json`
invokes it with `max_attempts=1`, so the deployed subsystem never issues a
repair call at all: on completely non-JSON text with 3 attempts it makes 3
fresh transport calls, 0 repair calls, and exhausts. -/
theorem structured_call_repair_behavior :
    (∀ (V : Type) (cap : Nat → String) (parse : String → Option V) (n : Nat) (s : CallState),
        (safe_call_for_json cap parse n s).2.repairCount = s.repairCount)
    ∧ (call_llm_for_json nonJsonCap neverParse 2 ⟨0, 0⟩).2.repairCount = 1
    ∧ (call_llm_for_json nonJsonCap neverParse 2 ⟨0, 0⟩).2.count = 2
    ∧ (safe_call_for_json nonJsonCap neverParse 3 ⟨0, 0⟩).2.repairCount = 0
    ∧ (safe_call_for_json nonJsonCap neverParse 3 ⟨0, 0⟩).2.count = 3
    ∧ (safe_call_for_json nonJsonCap neverParse 3 ⟨0, 0⟩).1 = none :=
  ⟨fun _ cap parse n s => safe_call_never_repairs cap parse n s,
   by decide, by decide, by decide, by decide, by decide⟩

/-- C2: for a base in [1,5] and a delta in [-2,2], `apply_difficulty` is the
clamp of the sum to [1,5]; its result lies in [1,5]; boundary cases
`apply_difficulty 1 (-2) = 1` and `apply_difficulty 5 2 = 5`. -/
theorem apply_difficulty_clamp (b d : Int)
    (hb1 : 1 ≤ b) (hb5 : b ≤ 5) (hd1 : -2 ≤ d) (hd2 : d ≤ 2) :
    apply_difficulty b d = max 1 (min 5 (b + d))
    ∧ 1 ≤ apply_difficulty b d ∧ apply_difficulty b d ≤ 5
    ∧ apply_difficulty 1 (-2) = 1 ∧ apply_difficulty 5 2 = 5 := by
  have hclamp : apply_difficulty b d = max 1 (min 5 (b + d)) := by
    have hb0 : ¬ (b = 0) := by omega
    by_cases hd : d = 0 <;> simp [apply_difficulty, hb0, hd]
  refine ⟨hclamp, ?_, ?_, by decide, by decide⟩
  · rw [hclamp]; exact le_max_left 1 (min 5 (b + d))
  · rw [hclamp]
    have h5 : min 5 (b + d) ≤ 5 := min_le_left 5 (b + d)
    exact max_le (by norm_num) h5

/-- Witness for C2 at base 3, delta 2. -/
theorem apply_difficulty_clamp_witness :
    apply_difficulty 3 2 = max 1 (min 5 ((3 : Int) + 2))
    ∧ 1 ≤ apply_difficulty 3 2 ∧ apply_difficulty 3 2 ≤ 5 :=
  let h := apply_difficulty_clamp 3 2 (by decide) (by decide) (by decide) (by decide)
  ⟨h.1, h.2.1, h.2.2.1⟩

/-- C3: `choose_route` returns exactly one of the five routes by the fixed
priority stop → final, role-reversal → answer_candidate, hallucination-claim
→ hallucination, off-topic → refocus, else normal; and whenever the route is
answer_candidate, refocus or hallucination, `policy_update_node` records that
route as the action type, overriding `decide_action_type`. -/
theorem choose_route_priority_and_override (stop : Bool) (det : RobustnessDetection)
    (observer_json : ObserverJson) (prev : Option String) :
    choose_route stop det ∈
        (["final", "answer_candidate", "hallucination", "refocus", "normal"] : List String)
    ∧ (stop = true → choose_route stop det = "final")
    ∧ (stop = false → det.role_reversal = true → choose_route stop det = "answer_candidate")
    ∧ (stop = false → det.role_reversal = false → det.hallucination_claim = true →
        choose_route stop det = "hallucination")
    ∧ (stop = false → det.role_reversal = false → det.hallucination_claim = false →
        det.off_topic = true → choose_route stop det = "refocus")
    ∧ (stop = false → det.role_reversal = false → det.hallucination_claim = false →
        det.off_topic = false → choose_route stop det = "normal")
    ∧ ((choose_route stop det = "answer_candidate" ∨ choose_route stop det = "refocus"
          ∨ choose_route stop det = "hallucination") →
        policy_action_type (some (choose_route stop det)) observer_json prev
          = choose_route stop det) := by
  rcases det with ⟨ot, rr, hc, ev, r, cq, sc⟩
  cases stop <;> cases ot <;> cases rr <;> cases hc <;>
    simp [choose_route, policy_action_type]

/-- Witness for C3: with stop not requested and a role-reversal detection, the
route is "answer_candidate" and the policy step records it as action type. -/
theorem choose_route_priority_witness :
    choose_route false (RobustnessDetection.mk false true false false "r" none none)
      = "answer_candidate"
    ∧ policy_action_type
        (some (choose_route false (RobustnessDetection.mk false true false false "r" none none)))
        (ObserverJson.mk (RobustnessFlags.mk false false false false) none none 0 none) none
      = choose_route false (RobustnessDetection.mk false true false false "r" none none) := by
  have h := choose_route_priority_and_override false
    (RobustnessDetection.mk false true false false "r" none none)
    (ObserverJson.mk (RobustnessFlags.mk false false false false) none none 0 none) none
  exact ⟨h.2.2.1 rfl rfl, h.2.2.2.2.2.2 (Or.inl (h.2.2.1 rfl rfl))⟩

/-- C4: `decide_action_type` returns exactly one of the six action types by
the fixed priority chain off-topic → refocus, role-reversal →
answer_candidate, low/incorrect correctness or low confidence → simplify,
partial/mixed correctness → clarify, previous action "simplify" → hint, else
ask; only the first matching condition applies. -/
theorem decide_action_type_priority (obs : ObserverJson) (prev : Option String) :
    decide_action_type obs prev ∈
        (["refocus", "answer_candidate", "simplify", "clarify", "hint", "ask"] : List String)
    ∧ (obs.robustness.off_topic = true → decide_action_type obs prev = "refocus")
    ∧ (obs.robustness.off_topic = false → obs.robustness.role_reversal = true →
        decide_action_type obs prev = "answer_candidate")
    ∧ (obs.robustness.off_topic = false → obs.robustness.role_reversal = false →
        (correctness_is_low obs.correctness || confidence_is_low obs.confidence) = true →
        decide_action_type obs prev = "simplify")
    ∧ (obs.robustness.off_topic = false → obs.robustness.role_reversal = false →
        (correctness_is_low obs.correctness || confidence_is_low obs.confidence) = false →
        correctness_is_partial obs.correctness = true →
        decide_action_type obs prev = "clarify")
    ∧ (obs.robustness.off_topic = false → obs.robustness.role_reversal = false →
        (correctness_is_low obs.correctness || confidence_is_low obs.confidence) = false →
        correctness_is_partial obs.correctness = false → prev = some "simplify" →
        decide_action_type obs prev = "hint")
    ∧ (obs.robustness.off_topic = false → obs.robustness.role_reversal = false →
        (correctness_is_low obs.correctness || confidence_is_low obs.confidence) = false →
        correctness_is_partial obs.correctness = false → prev ≠ some "simplify" →
        decide_action_type obs prev = "ask") := by
  rcases obs with ⟨⟨ot, rr, hc, ev⟩, corr, conf, dd, topi⟩
  cases ot <;> cases rr <;>
    cases hlo : (correctness_is_low corr || confidence_is_low conf) <;>
    cases hpa : correctness_is_partial corr <;>
    by_cases hp : prev = some "simplify" <;>
    simp [decide_action_type, hlo, hpa, hp]

/-- Witness for C4: an off-topic observer output decides "refocus". -/
theorem decide_action_type_priority_witness :
    decide_action_type
      (ObserverJson.mk (RobustnessFlags.mk true false false false) none none 0 none) none
      = "refocus" :=
  (decide_action_type_priority
    (ObserverJson.mk (RobustnessFlags.mk true false false false) none none 0 none) none).2.1 rfl

/-! ### Question bank and no-repeat selection (`app/policies/question_bank.py`,
`app/policies/context_guard.py`) -/

/-- One entry of `QUESTION_BANK` (`type` is rendered as `qtype`). -/
structure Question where
  question_id : String
  topic : String
  difficulty : Int
  qtype : String
  prompt : String
  deriving DecidableEq, Repr

/-- The fixed `QUESTION_BANK` (prompts abbreviated to their ids: no policy
code inspects the prompt text except for hashing, which is modelled
abstractly). -/
def QUESTION_BANK : List Question :=
  [⟨"py_types_1", "python_types", 1, "ask", "py_types_1 prompt"⟩,
   ⟨"py_types_1_simplify", "python_types", 1, "simplify", "py_types_1_simplify prompt"⟩,
   ⟨"py_types_1_hint", "python_types", 1, "hint", "py_types_1_hint prompt"⟩,
   ⟨"py_iter_2", "python_iterators", 2, "ask", "py_iter_2 prompt"⟩,
   ⟨"py_iter_2_clarify", "python_iterators", 2, "clarify", "py_iter_2_clarify prompt"⟩,
   ⟨"sql_join_1", "sql_joins", 1, "ask", "sql_join_1 prompt"⟩,
   ⟨"sql_join_1_simplify", "sql_joins", 1, "simplify", "sql_join_1_simplify prompt"⟩,
   ⟨"py_oop_3", "python_oop", 3, "ask", "py_oop_3 prompt"⟩,
   ⟨"sql_index_3", "sql_indexes", 3, "ask", "sql_index_3 prompt"⟩,
   ⟨"git_rebase_1", "git_basics", 1, "ask", "git_rebase_1 prompt"⟩,
   ⟨"git_rebase_1_clarify", "git_basics", 1, "clarify", "git_rebase_1_clarify prompt"⟩]

/-- `get_candidates`: filter by exact difficulty, then by topic and type when
those are truthy (Python: `if topic:` / `if qtype:` skip `None` and `""`). -/
def get_candidates (topic : Option String) (difficulty : Int) (qtype : Option String) :
    List Question :=
  let candidates := QUESTION_BANK.filter (fun q => q.difficulty == difficulty)
  let candidates := match topic with
    | some t => if t = "" then candidates else candidates.filter (fun q => q.topic == t)
    | none => candidates
  match qtype with
  | some ty => if ty = "" then candidates else candidates.filter (fun q => q.qtype == ty)
  | none => candidates

/-- `pick_next_question`: first candidate whose id is not in the asked set
(every bank id is a string, so the `isinstance` guard always holds). -/
def pick_next_question (asked_questions : List String) (topic : Option String)
    (difficulty : Int) (qtype : String) : Option Question :=
  (get_candidates topic difficulty (some qtype)).find?
    (fun q => !(asked_questions.contains q.question_id))

/-- `enforce_no_repeat` (`app/policies/context_guard.py`). -/
def enforce_no_repeat (chosen : Option Question) (asked_questions : List String)
    (fallback_pool : List Question) : Option Question :=
  match chosen with
  | none => fallback_pool.find? (fun q => !(asked_questions.contains q.question_id))
  | some q =>
    if !(asked_questions.contains q.question_id) then some q
    else fallback_pool.find? (fun q => !(asked_questions.contains q.question_id))

/-- The question-planning slice of `policy_update_node` (`app/graph/nodes.py`):
exact pick, then a fallback pool `get_candidates(None, difficulty,
followup_type) or get_candidates(None, difficulty, None)` (Python `or`: the
second list only when the first is empty), then widening difficulty over
levels 1–5 with no topic or type filter. -/
def plan_question (asked_questions : List String) (selected_topic : String)
    (difficulty : Int) (followup_type : String) : Option Question :=
  match pick_next_question asked_questions (some selected_topic) difficulty followup_type with
  | some q => some q
  | none =>
    let fallback_pool := match get_candidates none difficulty (some followup_type) with
      | [] => get_candidates none difficulty none
      | l => l
    match enforce_no_repeat none asked_questions fallback_pool with
    | some q => some q
    | none =>
      ([1, 2, 3, 4, 5] : List Int).findSome?
        (fun level => enforce_no_repeat none asked_questions (get_candidates none level none))

/-- The first question of a list whose id is not in the asked set; this is
what `pick_next_question` and `enforce_no_repeat(None, ...)` compute on their
candidate lists. -/
def first_unasked (asked_questions : List String) (l : List Question) : Option Question :=
  l.find? (fun q => !(asked_questions.contains q.question_id))

/-- Modelled from the spec: the relaxation order the spec describes for
question planning — "drop type, then drop topic, then widen difficulty across
the full 1–5 range in order".  Stated only to be compared with
`plan_question`, the order the code implements. -/
def plan_question_spec_order (asked_questions : List String) (selected_topic : String)
    (difficulty : Int) (followup_type : String) : Option Question :=
  match first_unasked asked_questions
      (get_candidates (some selected_topic) difficulty (some followup_type)) with
  | some q => some q
  | none =>
    match first_unasked asked_questions (get_candidates (some selected_topic) difficulty none) with
    | some q => some q
    | none =>
      match first_unasked asked_questions (get_candidates none difficulty none) with
      | some q => some q
      | none =>
        ([1, 2, 3, 4, 5] : List Int).findSome?
          (fun level => first_unasked asked_questions (get_candidates none level none))

lemma pick_eq_first_unasked (asked : List String) (topic : Option String)
    (difficulty : Int) (qtype : String) :
    pick_next_question asked topic difficulty qtype
      = first_unasked asked (get_candidates topic difficulty (some qtype)) := rfl

lemma enforce_none_eq_first_unasked (asked : List String) (pool : List Question) :
    enforce_no_repeat none asked pool = first_unasked asked pool := rfl

lemma first_unasked_eq_none_iff (asked : List String) (l : List Question) :
    first_unasked asked l = none ↔ ∀ q ∈ l, q.question_id ∈ asked := by
  unfold first_unasked
  simp [List.find?_eq_none]

lemma mem_get_candidates {q : Question} {topic : Option String} {difficulty : Int}
    {qtype : Option String} (h : q ∈ get_candidates topic difficulty qtype) :
    q ∈ QUESTION_BANK := by
  unfold get_candidates at h
  cases topic <;> cases qtype <;> dsimp at h <;>
    (try split at h) <;> (try split at h) <;>
    simp only [List.mem_filter] at h <;> tauto

lemma self_mem_get_candidates {q : Question} (h : q ∈ QUESTION_BANK) :
    q ∈ get_candidates none q.difficulty none := by
  unfold get_candidates
  exact List.mem_filter.mpr ⟨h, by simp⟩

/-- C5: neither `pick_next_question` nor `enforce_no_repeat` ever returns a
question whose id is already in the asked set. -/
theorem no_repeat_selection (asked : List String) (topic : Option String)
    (difficulty : Int) (qtype : String) (chosen : Option Question)
    (fallback_pool : List Question) (q : Question) :
    (pick_next_question asked topic difficulty qtype = some q → q.question_id ∉ asked)
    ∧ (enforce_no_repeat chosen asked fallback_pool = some q → q.question_id ∉ asked) := by
  constructor
  · intro h
    have hp := List.find?_some h
    simpa using hp
  · intro h
    cases chosen with
    | none =>
      have hp := List.find?_some h
      simpa using hp
    | some c =>
      unfold enforce_no_repeat at h
      by_cases hc : c.question_id ∈ asked
      · simp [hc] at h
        have hp := List.find?_some h
        simpa using hp
      · simp [hc] at h
        exact h ▸ hc

/-- Witness for C5: with "py_types_1" already asked, picking an "ask" question
at difficulty 1 returns "sql_join_1", which is not in the asked set. -/
theorem no_repeat_selection_witness :
    (Question.mk "sql_join_1" "sql_joins" 1 "ask" "sql_join_1 prompt").question_id
      ∉ (["py_types_1"] : List String) :=
  (no_repeat_selection ["py_types_1"] none 1 "ask" none []
    (Question.mk "sql_join_1" "sql_joins" 1 "ask" "sql_join_1 prompt")).1 (by decide)

/-- C6 counterexample: with nothing asked, topic "python_types", difficulty 1
and type "clarify", the code's first relaxation drops the *topic* (keeping the
type) and returns the git-basics clarify question, even though an unasked
python_types question at difficulty 1 exists; the spec's claimed order (drop
type first) would return a python_types question. -/
theorem plan_question_drops_topic_before_type :
    (plan_question [] "python_types" 1 "clarify").map Question.topic = some "git_basics"
    ∧ (plan_question_spec_order [] "python_types" 1 "clarify").map Question.topic
        = some "python_types"
    ∧ first_unasked [] (get_candidates (some "python_types") 1 none) ≠ none := by
  refine ⟨by decide, by decide, by decide⟩

/-- C6 amended: when the exact (difficulty, topic, type) filter yields no
unasked question, `policy_update_node` first drops the topic constraint while
keeping the type; only when that any-topic same-type pool is *empty* does it
also drop the type constraint at the same difficulty; if the pool stage finds
nothing it widens difficulty across levels 1–5 in order with no topic or type
filter; and it returns no question exactly when every bank question has
already been asked. -/
theorem plan_question_relaxation (asked : List String) (topic : String)
    (difficulty : Int) (qtype : String) :
    (∀ q, first_unasked asked (get_candidates (some topic) difficulty (some qtype)) = some q →
        plan_question asked topic difficulty qtype = some q)
    ∧ (first_unasked asked (get_candidates (some topic) difficulty (some qtype)) = none →
        ∀ q, first_unasked asked
            (match get_candidates none difficulty (some qtype) with
             | [] => get_candidates none difficulty none
             | l => l) = some q →
          plan_question asked topic difficulty qtype = some q)
    ∧ (first_unasked asked (get_candidates (some topic) difficulty (some qtype)) = none →
        first_unasked asked
            (match get_candidates none difficulty (some qtype) with
             | [] => get_candidates none difficulty none
             | l => l) = none →
        plan_question asked topic difficulty qtype
          = ([1, 2, 3, 4, 5] : List Int).findSome?
              (fun level => first_unasked asked (get_candidates none level none)))
    ∧ (plan_question asked topic difficulty qtype = none ↔
        ∀ q ∈ QUESTION_BANK, q.question_id ∈ asked) := by
  have h1 : ∀ q, first_unasked asked (get_candidates (some topic) difficulty (some qtype))
      = some q → plan_question asked topic difficulty qtype = some q := by
    intro q h
    unfold plan_question
    rw [pick_eq_first_unasked, h]
  have h2 : first_unasked asked (get_candidates (some topic) difficulty (some qtype)) = none →
      ∀ q, first_unasked asked
          (match get_candidates none difficulty (some qtype) with
           | [] => get_candidates none difficulty none
           | l => l) = some q →
        plan_question asked topic difficulty qtype = some q := by
    intro h0 q h
    unfold plan_question
    rw [pick_eq_first_unasked, h0]
    simp only [enforce_none_eq_first_unasked]
    rw [h]
  have h3 : first_unasked asked (get_candidates (some topic) difficulty (some qtype)) = none →
      first_unasked asked
          (match get_candidates none difficulty (some qtype) with
           | [] => get_candidates none difficulty none
           | l => l) = none →
      plan_question asked topic difficulty qtype
        = ([1, 2, 3, 4, 5] : List Int).findSome?
            (fun level => first_unasked asked (get_candidates none level none)) := by
    intro h0 hp
    unfold plan_question
    rw [pick_eq_first_unasked, h0]
    simp only [enforce_none_eq_first_unasked]
    rw [hp]
  have hbankd : ∀ q ∈ QUESTION_BANK, q.difficulty ∈ ([1, 2, 3, 4, 5] : List Int) := by decide
  have h4 : plan_question asked topic difficulty qtype = none ↔
      ∀ q ∈ QUESTION_BANK, q.question_id ∈ asked := by
    constructor
    · intro hplan q hq
      cases hs0 : first_unasked asked (get_candidates (some topic) difficulty (some qtype)) with
      | some q0 => rw [h1 q0 hs0] at hplan; exact absurd hplan (by simp)
      | none =>
        cases hs1 : first_unasked asked
            (match get_candidates none difficulty (some qtype) with
             | [] => get_candidates none difficulty none
             | l => l) with
        | some q1 => rw [h2 hs0 q1 hs1] at hplan; exact absurd hplan (by simp)
        | none =>
          rw [h3 hs0 hs1] at hplan
          rw [List.findSome?_eq_none_iff] at hplan
          have hnone := hplan q.difficulty (hbankd q hq)
          exact (first_unasked_eq_none_iff asked _).mp hnone q (self_mem_get_candidates hq)
    · intro hall
      have hstage : ∀ l : List Question, (∀ q ∈ l, q ∈ QUESTION_BANK) →
          first_unasked asked l = none := fun l hl =>
        (first_unasked_eq_none_iff asked l).mpr (fun q hq => hall q (hl q hq))
      have hs0 := hstage (get_candidates (some topic) difficulty (some qtype))
        (fun _ hq => mem_get_candidates hq)
      have hpool : first_unasked asked
          (match get_candidates none difficulty (some qtype) with
           | [] => get_candidates none difficulty none
           | l => l) = none := by
        cases hgc : get_candidates none difficulty (some qtype) with
        | nil =>
          simp only [hgc]
          exact hstage _ (fun _ hq => mem_get_candidates hq)
        | cons a as =>
          simp only [hgc]
          refine hstage (a :: as) (fun q hq => ?_)
          exact mem_get_candidates
            (show q ∈ get_candidates none difficulty (some qtype) by rw [hgc]; exact hq)
      rw [h3 hs0 hpool]
      exact List.findSome?_eq_none_iff.mpr
        (fun level _ => hstage _ (fun _ hq => mem_get_candidates hq))
  exact ⟨h1, h2, h3, h4⟩

/-- Witness for C6: with "py_types_1" already asked and an "ask" request on
topic "python_types" at difficulty 1, the exact stage is exhausted and the
pool stage (topic dropped, type kept) returns "sql_join_1". -/
theorem plan_question_relaxation_witness :
    plan_question ["py_types_1"] "python_types" 1 "ask"
      = some (Question.mk "sql_join_1" "sql_joins" 1 "ask" "sql_join_1 prompt") :=
  (plan_question_relaxation ["py_types_1"] "python_types" 1 "ask").2.1 (by decide)
    (Question.mk "sql_join_1" "sql_joins" 1 "ask" "sql_join_1 prompt") (by decide)

/-! ### Python string primitives

`decide` must evaluate the embedded policy code, so Python's `str.lower`,
`str.strip` and string ordering are implemented over the character data by
code point (all strings these policies compare are ASCII). -/

/-- Python `str.lower` on one ASCII character. -/
def py_lower_char (c : Char) : Char :=
  if 65 ≤ c.toNat ∧ c.toNat ≤ 90 then Char.ofNat (c.toNat + 32) else c

/-- Python `str.strip` whitespace class (space, tab, LF, CR, VT, FF). -/
def py_is_space (c : Char) : Bool :=
  c.toNat = 32 || c.toNat = 9 || c.toNat = 10 || c.toNat = 13 || c.toNat = 11 || c.toNat = 12

/-- Python `str.strip`: drop leading and trailing whitespace. -/
def py_strip_chars (s : List Char) : List Char :=
  ((s.dropWhile py_is_space).reverse.dropWhile py_is_space).reverse

/-- `normalize_topic` (`app/policies/context_guard.py`): `strip().lower()`. -/
def normalize_topic (topic : String) : String :=
  String.mk ((py_strip_chars topic.data).map py_lower_char)

/-- Python string `<=`: lexicographic by code point. -/
def py_chars_le : List Char → List Char → Bool
  | [], _ => true
  | _ :: _, [] => false
  | x :: xs, y :: ys =>
    if x.toNat < y.toNat then true
    else if y.toNat < x.toNat then false
    else py_chars_le xs ys

/-- Python string `<=` on `String`. -/
def py_str_le (a b : String) : Bool := py_chars_le a.data b.data

/-- Insertion step of a sort equivalent to Python's `sorted` on strings. -/
def insertSortedStr (x : String) : List String → List String
  | [] => [x]
  | y :: ys => if py_str_le x y then x :: y :: ys else y :: insertSortedStr x ys

/-- Python `sorted` on a list of strings (insertion sort; the inserted element
stops at the first position whose element is not below it, which is a stable
ascending sort — and the sorted result is unique on the deduplicated input). -/
def sortStrings (l : List String) : List String := l.foldr insertSortedStr []

/-- `get_all_topics` (`app/policies/question_bank.py`): the sorted set of bank
topics (every bank topic is a string, so the `isinstance` guard always
holds). -/
def get_all_topics : List String :=
  sortStrings ((QUESTION_BANK.map (fun q => q.topic)).dedup)

/-! ### Topic state, loop detection (`app/memory/controls.py`) and topic
selection (`app/policies/topic_manager.py`) -/

/-- The topic-state fields the policies read and write: the current topic,
the bounded recent-topic history and the recent-prompt-hash ring. -/
structure TopicState where
  current_topic : String
  last_topics : List String
  last_prompts_hashes : List String
  deriving DecidableEq, Repr

/-- Python `l[-n:]`: the last `n` elements (the whole list when shorter). -/
def lastN {α : Type} (n : Nat) (l : List α) : List α := l.drop (l.length - n)

/-- `detect_loop` (`app/memory/controls.py`), parametric in the stable content
hash (`_hash_prompt` is SHA-1, a fixed function of the prompt text): append
the new prompt's hash, store the last 5 hashes back on the topic state, and
report a loop when the appended list has at least 3 entries and its last 3
are all the same (`len(set(hashes[-3:])) == 1`). -/
def detect_loop (hash : String → String) (topic_state : TopicState) (new_prompt : String) :
    TopicState × Bool :=
  let hashes := topic_state.last_prompts_hashes ++ [hash new_prompt]
  ({ topic_state with last_prompts_hashes := lastN 5 hashes },
   decide (3 ≤ hashes.length) && ((lastN 3 hashes).dedup.length == 1))

/-- `_status_priority` (`app/policies/topic_manager.py`): `mapping.get(status, 2)`. -/
def _status_priority (status : String) : Nat :=
  if status = "gap" then 0
  else if status = "uncertain" then 1
  else if status = "unknown" then 2
  else if status = "confirmed" then 3
  else 2

/-- One skill-matrix entry: `{"status": ..., "evidence": [...]}`; the status
key is always present but may hold Python `None`. -/
structure SkillEntry where
  status : Option String
  evidence : List String
  deriving DecidableEq, Repr

/-- A Python dict as an ordered association list with unique keys. -/
abbrev SkillMatrix := List (String × SkillEntry)

/-- Python `d.get(k)` on an ordered dict. -/
def alistGet {α : Type} : List (String × α) → String → Option α
  | [], _ => none
  | (k', v) :: rest, k => if k' == k then some v else alistGet rest k

/-- Python `d[k] = v` on an ordered dict: replace in place, else append. -/
def alistSet {α : Type} : List (String × α) → String → α → List (String × α)
  | [], k, v => [(k, v)]
  | (k', v') :: rest, k, v =>
    if k' == k then (k, v) :: rest else (k', v') :: alistSet rest k v

/-- `str(entry.get("status", "unknown"))` for `skill_matrix.get(topic, {})`:
a missing topic reads as "unknown", a present entry with status `None` reads
as Python's `str(None) = "None"`. -/
def entry_status_str (skill_matrix : SkillMatrix) (topic : String) : String :=
  match alistGet skill_matrix topic with
  | none => "unknown"
  | some e =>
    match e.status with
    | none => "None"
    | some s => s

/-- `should_switch_topic` (`app/policies/context_guard.py`): needs at least
two recent topics, the last two equal, and some alternative available. -/
def should_switch_topic (last_topics : List String) (available_topics : List String) : Bool :=
  match lastN 2 last_topics with
  | [a, b] => a == b && available_topics.any (fun t => t != b)
  | _ => false

/-- Insertion step of Python's stable `scored.sort(key=lambda x: x[0])`: the
inserted element (earlier in the original list) stops before the first
element whose key is not smaller, so equal keys keep their original order. -/
def insertScored (x : Nat × String) : List (Nat × String) → List (Nat × String)
  | [] => [x]
  | y :: ys => if x.1 ≤ y.1 then x :: y :: ys else y :: insertScored x ys

/-- Python's stable sort by score. -/
def sortScored (l : List (Nat × String)) : List (Nat × String) := l.foldr insertScored []

/-- `select_next_topic` (`app/policies/topic_manager.py`). -/
def select_next_topic (skill_matrix : SkillMatrix) (topic_state : TopicState) : String :=
  let all_topics := get_all_topics
  let last_topics := topic_state.last_topics
  let scored := sortScored (all_topics.map (fun topic =>
    (_status_priority (normalize_topic (entry_status_str skill_matrix topic)), topic)))
  let selected := match scored with
    | [] => match all_topics with
      | [] => "general"
      | t :: _ => t
    | p :: _ => p.2
  if should_switch_topic last_topics all_topics then
    match last_topics.getLast? with
    | some last =>
      match scored.find? (fun p => p.2 != last) with
      | some p => p.2
      | none => selected
    | none => selected
  else selected

/-- `break_loop` (`app/memory/controls.py`): delegates to `select_next_topic`. -/
def break_loop (skill_matrix : SkillMatrix) (topic_state : TopicState) : String :=
  select_next_topic skill_matrix topic_state

lemma lastN_length_le {α : Type} (n : Nat) (l : List α) : (lastN n l).length ≤ n := by
  simp [lastN]
  omega

lemma lastN_length {α : Type} (n : Nat) (l : List α) :
    (lastN n l).length = min n l.length := by
  simp [lastN]
  omega

lemma dedup_length_eq_one_iff_three (l : List String) (h : l.length = 3) :
    l.dedup.length = 1 ↔ ∃ a, l = [a, a, a] := by
  obtain ⟨x, y, z, rfl⟩ := List.length_eq_three.mp h
  constructor
  · intro hd
    obtain ⟨a, ha⟩ := List.length_eq_one.mp hd
    have hmem : ∀ w ∈ [x, y, z], w = a := by
      intro w hw
      have hmem2 : w ∈ List.dedup [x, y, z] := List.mem_dedup.mpr hw
      rw [ha] at hmem2
      simpa using hmem2
    exact ⟨a, by rw [hmem x (by simp), hmem y (by simp), hmem z (by simp)]⟩
  · rintro ⟨a, ha⟩
    simp only [List.cons.injEq, and_true] at ha
    obtain ⟨rfl, rfl, rfl⟩ := ha
    rw [List.dedup_cons_of_mem (by simp), List.dedup_cons_of_mem (by simp)]
    simp

/-- C7: `detect_loop` appends the planned prompt's hash, the stored ring is
the last 5 hashes (so always at most 5 entries), the other topic-state fields
are untouched, and the result is `true` exactly when at least three hashes
have been recorded and the last three are identical — so two identical
consecutive hashes never declare a loop. -/
theorem detect_loop_ring_and_trigger (hash : String → String) (ts : TopicState) (p : String) :
    ((detect_loop hash ts p).1.last_prompts_hashes).length ≤ 5
    ∧ (detect_loop hash ts p).1.last_prompts_hashes
        = lastN 5 (ts.last_prompts_hashes ++ [hash p])
    ∧ (detect_loop hash ts p).1.current_topic = ts.current_topic
    ∧ (detect_loop hash ts p).1.last_topics = ts.last_topics
    ∧ ((detect_loop hash ts p).2 = true ↔
        3 ≤ ts.last_prompts_hashes.length + 1
        ∧ ∃ a, lastN 3 (ts.last_prompts_hashes ++ [hash p]) = [a, a, a]) := by
  refine ⟨lastN_length_le 5 _, rfl, rfl, rfl, ?_⟩
  simp only [detect_loop, Bool.and_eq_true, decide_eq_true_eq, beq_iff_eq]
  have hlen : (ts.last_prompts_hashes ++ [hash p]).length
      = ts.last_prompts_hashes.length + 1 := by simp
  rw [hlen]
  constructor
  · rintro ⟨hge, hd⟩
    refine ⟨hge, ?_⟩
    exact (dedup_length_eq_one_iff_three _ (by rw [lastN_length, hlen]; omega)).mp hd
  · rintro ⟨hge, ha⟩
    refine ⟨hge, ?_⟩
    exact (dedup_length_eq_one_iff_three _ (by rw [lastN_length, hlen]; omega)).mpr ha

lemma mem_insertScored {x y : Nat × String} {l : List (Nat × String)} :
    y ∈ insertScored x l ↔ y = x ∨ y ∈ l := by
  induction l with
  | nil => simp [insertScored]
  | cons z zs ih =>
    unfold insertScored
    split
    · simp
    · simp [ih]
      tauto

lemma mem_sortScored {y : Nat × String} {l : List (Nat × String)} :
    y ∈ sortScored l ↔ y ∈ l := by
  induction l with
  | nil => simp [sortScored]
  | cons z zs ih =>
    simp only [sortScored, List.foldr] at ih ⊢
    rw [mem_insertScored, ih]
    simp

lemma getLast?_of_lastN_two {l : List String} {a b : String} (h : lastN 2 l = [a, b]) :
    l.getLast? = some b := by
  have hsplit : l.take (l.length - 2) ++ lastN 2 l = l := List.take_append_drop _ l
  conv_lhs => rw [← hsplit]
  rw [h, List.getLast?_append]
  simp

lemma any_ne_topic (b : String) : get_all_topics.any (fun t => t != b) = true := by
  by_cases hb : b = "git_basics"
  · subst hb; decide
  · refine List.any_eq_true.mpr ⟨"git_basics", by decide, ?_⟩
    simpa using Ne.symm hb

lemma find_ne_topic (skill_matrix : SkillMatrix) (b : String) :
    ∃ p, (sortScored (get_all_topics.map (fun topic =>
        (_status_priority (normalize_topic (entry_status_str skill_matrix topic)), topic)))).find?
          (fun p => p.2 != b) = some p ∧ p.2 ≠ b := by
  rcases hf : (sortScored (get_all_topics.map (fun topic =>
      (_status_priority (normalize_topic (entry_status_str skill_matrix topic)), topic)))).find?
        (fun p => p.2 != b) with _ | p
  · exfalso
    rw [List.find?_eq_none] at hf
    obtain ⟨t, ht, hne⟩ := List.any_eq_true.mp (any_ne_topic b)
    have hmem := mem_sortScored.mpr
      (List.mem_map_of_mem
        (fun topic => (_status_priority (normalize_topic (entry_status_str skill_matrix topic)), topic)) ht)
    exact hf _ hmem hne
  · exact ⟨p, hf, by simpa using List.find?_some hf⟩

/-- C8 counterexample: with an empty skill matrix and no recent-topic
history, `break_loop` returns the best-ranked topic, which can be the
current topic even though alternative topics exist in the pool. -/
theorem break_loop_may_keep_current_topic :
    break_loop [] (TopicState.mk "git_basics" [] [])
        = (TopicState.mk "git_basics" [] []).current_topic
    ∧ ∃ t ∈ get_all_topics, t ≠ (TopicState.mk "git_basics" [] []).current_topic := by
  exact ⟨by decide, ⟨"python_types", by decide, by decide⟩⟩

/-- C8 amended: `break_loop` delegates to `select_next_topic`, which avoids
the most recent topic only through the forced-switch rule: whenever the two
most recent topics in the topic state are the same topic `b` (and the topic
pool always contains an alternative), the selected topic differs from `b`;
with no such repetition the returned topic may equal the current topic. -/
theorem break_loop_switches_topic (skill_matrix : SkillMatrix) (ts : TopicState) (b : String)
    (h2 : lastN 2 ts.last_topics = [b, b]) :
    break_loop skill_matrix ts ≠ b := by
  obtain ⟨p, hf, hne⟩ := find_ne_topic skill_matrix b
  have hswitch : should_switch_topic ts.last_topics get_all_topics = true := by
    unfold should_switch_topic
    rw [h2]
    simp [any_ne_topic b]
  have hlast : ts.last_topics.getLast? = some b := getLast?_of_lastN_two h2
  unfold break_loop select_next_topic
  simp only [hswitch, if_true, hlast, hf]
  exact hne

/-- Witness for C8 (amended): two consecutive turns on "python_types" force
the loop-break to select a different topic. -/
theorem break_loop_switches_topic_witness :
    break_loop [] (TopicState.mk "python_types" ["python_types", "python_types"] [])
      ≠ "python_types" :=
  break_loop_switches_topic []
    (TopicState.mk "python_types" ["python_types", "python_types"] [])
    "python_types" (by decide)

/-! ### Skill-matrix updates (`app/memory/skills.py`) -/

/-- One element of the `updates` iterable: a dict that may lack any of the
three keys (`item.get(...)` returns `None` for a missing key). -/
structure SkillUpdateItem where
  topic : Option String
  status : Option String
  evidence : Option String
  deriving DecidableEq, Repr

/-- Python `x or y` on optional strings: `None` and `""` are falsy. -/
def py_or_str (x : Option String) (y : Option String) : Option String :=
  match x with
  | some s => if s = "" then y else some s
  | none => y

/-- The body of the `for item in updates` loop of `apply_skill_updates`:
skip a falsy topic; read the current entry (default status `None`, empty
evidence); append truthy evidence to a copy of the evidence list; keep a
"confirmed" status unless the update is itself "confirmed"; otherwise
`status or current_status`; store the rebuilt entry. -/
def apply_one_update (updated : SkillMatrix) (item : SkillUpdateItem) : SkillMatrix :=
  match item.topic with
  | none => updated
  | some topic =>
    if topic = "" then updated
    else
      let entry := (alistGet updated topic).getD ⟨none, []⟩
      let evidence_list :=
        match item.evidence with
        | some e => if e = "" then entry.evidence else entry.evidence ++ [e]
        | none => entry.evidence
      let new_status :=
        if entry.status = some "confirmed" ∧ item.status ≠ some "confirmed" then entry.status
        else py_or_str item.status entry.status
      alistSet updated topic ⟨new_status, evidence_list⟩

/-- `apply_skill_updates` (`app/memory/skills.py`): fold the loop body over
the updates, starting from a copy of the input matrix. -/
def apply_skill_updates (skill_matrix : SkillMatrix) (updates : List SkillUpdateItem) :
    SkillMatrix :=
  updates.foldl apply_one_update skill_matrix

/-- The status recorded for a topic (`None` when the topic is missing or its
status is `None`). -/
def statusAt (m : SkillMatrix) (t : String) : Option String :=
  (alistGet m t).bind (fun e => e.status)

/-- The evidence list recorded for a topic (empty when the topic is missing). -/
def evidenceAt (m : SkillMatrix) (t : String) : List String :=
  ((alistGet m t).map (fun e => e.evidence)).getD []

/-- The evidence strings a list of updates appends to topic `t`: those of
updates addressed to `t` whose topic and evidence are truthy. -/
def collect_evidence : List SkillUpdateItem → String → List String
  | [], _ => []
  | item :: rest, t =>
    (match item.topic, item.evidence with
     | some topic, some e => if topic = t ∧ topic ≠ "" ∧ e ≠ "" then [e] else []
     | _, _ => []) ++ collect_evidence rest t

lemma alistGet_alistSet_self {α : Type} (m : List (String × α)) (k : String) (v : α) :
    alistGet (alistSet m k v) k = some v := by
  induction m with
  | nil => simp [alistSet, alistGet]
  | cons p rest ih =>
    obtain ⟨k', v'⟩ := p
    by_cases h : k' = k <;> simp [alistSet, alistGet, h, ih]

lemma alistGet_alistSet_ne {α : Type} (m : List (String × α)) (k k' : String) (v : α)
    (h : k ≠ k') : alistGet (alistSet m k v) k' = alistGet m k' := by
  induction m with
  | nil => simp [alistSet, alistGet, h]
  | cons p rest ih =>
    obtain ⟨k₀, v₀⟩ := p
    by_cases h0 : k₀ = k
    · subst h0
      simp [alistSet, alistGet, h]
    · by_cases h1 : k₀ = k' <;> simp [alistSet, alistGet, h0, h1, ih, Ne.symm h]

lemma apply_updates_cons (m : SkillMatrix) (i : SkillUpdateItem) (us : List SkillUpdateItem) :
    apply_skill_updates m (i :: us) = apply_skill_updates (apply_one_update m i) us := rfl

lemma statusAt_apply_one (m : SkillMatrix) (item : SkillUpdateItem) (t : String)
    (h : statusAt m t = some "confirmed") :
    statusAt (apply_one_update m item) t = some "confirmed" := by
  rcases hti : item.topic with _ | topic
  · simpa [apply_one_update, hti] using h
  · by_cases h0 : topic = ""
    · simpa [apply_one_update, hti, h0] using h
    · by_cases htt : topic = t
      · subst htt
        rcases hg : alistGet m topic with _ | ent
        · simp [statusAt, hg] at h
        · have hst : ent.status = some "confirmed" := by
            simpa [statusAt, hg] using h
          by_cases hs : item.status = some "confirmed" <;>
            simp [apply_one_update, statusAt, hti, h0, hg, hst, hs,
              alistGet_alistSet_self, py_or_str]
      · simpa [apply_one_update, statusAt, hti, h0,
          alistGet_alistSet_ne m topic t _ htt] using h

lemma evidenceAt_apply_one (m : SkillMatrix) (item : SkillUpdateItem) (t : String) :
    evidenceAt (apply_one_update m item) t = evidenceAt m t ++ collect_evidence [item] t := by
  rcases hti : item.topic with _ | topic
  · simp [apply_one_update, collect_evidence, hti]
  · by_cases h0 : topic = ""
    · rcases hev : item.evidence with _ | e <;>
        simp [apply_one_update, collect_evidence, hti, h0, hev]
    · by_cases htt : topic = t
      · subst htt
        rcases hev : item.evidence with _ | e
        · simp [apply_one_update, evidenceAt, collect_evidence, hti, h0, hev,
            alistGet_alistSet_self]
          rcases hg : alistGet m topic with _ | ent <;> simp [hg]
        · by_cases he : e = "" <;>
          · simp [apply_one_update, evidenceAt, collect_evidence, hti, h0, hev, he,
              alistGet_alistSet_self]
            rcases hg : alistGet m topic with _ | ent <;> simp [hg]
      · simp [apply_one_update, evidenceAt, collect_evidence, hti, h0, htt,
          alistGet_alistSet_ne m topic t _ htt]
        rcases hev : item.evidence with _ | e <;> simp [htt]

lemma collect_evidence_cons (i : SkillUpdateItem) (us : List SkillUpdateItem) (t : String) :
    collect_evidence (i :: us) t = collect_evidence [i] t ++ collect_evidence us t := by
  simp [collect_evidence]

lemma statusAt_apply_updates (m : SkillMatrix) (us : List SkillUpdateItem) (t : String)
    (h : statusAt m t = some "confirmed") :
    statusAt (apply_skill_updates m us) t = some "confirmed" := by
  induction us generalizing m with
  | nil => simpa [apply_skill_updates] using h
  | cons i rest ih =>
    rw [apply_updates_cons]
    exact ih _ (statusAt_apply_one m i t h)

lemma evidenceAt_apply_updates (m : SkillMatrix) (us : List SkillUpdateItem) (t : String) :
    evidenceAt (apply_skill_updates m us) t = evidenceAt m t ++ collect_evidence us t := by
  induction us generalizing m with
  | nil => simp [apply_skill_updates, collect_evidence]
  | cons i rest ih =>
    rw [apply_updates_cons, ih, evidenceAt_apply_one]
    simp [collect_evidence, List.append_assoc]

/-- C9: once a topic's status is "confirmed", no sequence of updates (whatever
their statuses) moves it away from "confirmed"; every update's truthy evidence
is still appended to that topic's evidence list in order; and a topic that was
missing from the matrix ends up, when updates create it, with exactly the
evidence contributed by the updates (i.e. it starts from an empty list). -/
theorem skill_matrix_monotonic_confirmation (m : SkillMatrix) (us : List SkillUpdateItem)
    (t : String) :
    (statusAt m t = some "confirmed" → statusAt (apply_skill_updates m us) t = some "confirmed")
    ∧ evidenceAt (apply_skill_updates m us) t = evidenceAt m t ++ collect_evidence us t
    ∧ (alistGet m t = none → ∀ e, alistGet (apply_skill_updates m us) t = some e →
        e.evidence = collect_evidence us t) := by
  refine ⟨statusAt_apply_updates m us t, evidenceAt_apply_updates m us t, ?_⟩
  intro hnone e he
  have h2 := evidenceAt_apply_updates m us t
  simpa [evidenceAt, hnone, he] using h2

/-- Witness for C9: a "gap" update with evidence on a confirmed topic leaves
the status "confirmed" and appends the evidence. -/
theorem skill_matrix_monotonic_confirmation_witness :
    statusAt (apply_skill_updates [("sql_joins", SkillEntry.mk (some "confirmed") ["ev0"])]
        [SkillUpdateItem.mk (some "sql_joins") (some "gap") (some "ev1")]) "sql_joins"
      = some "confirmed"
    ∧ evidenceAt (apply_skill_updates [("sql_joins", SkillEntry.mk (some "confirmed") ["ev0"])]
        [SkillUpdateItem.mk (some "sql_joins") (some "gap") (some "ev1")]) "sql_joins"
      = evidenceAt [("sql_joins", SkillEntry.mk (some "confirmed") ["ev0"])] "sql_joins"
        ++ collect_evidence [SkillUpdateItem.mk (some "sql_joins") (some "gap") (some "ev1")]
            "sql_joins" :=
  let h := skill_matrix_monotonic_confirmation
    [("sql_joins", SkillEntry.mk (some "confirmed") ["ev0"])]
    [SkillUpdateItem.mk (some "sql_joins") (some "gap") (some "ev1")] "sql_joins"
  ⟨h.1 (by decide), h.2.1⟩

/-! ### Heap model of `apply_skill_updates` (frame property)

The pure embedding above erases Python's object identity, so the no-mutation
claim is settled on an explicit heap: the skill matrix is a `dictObj` whose
values are addresses of `entryObj`s, and each entry's evidence is the address
of a `listObj`.  The function is re-traced operation by operation:
`dict(skill_matrix or {})` allocates a shallow copy (entry addresses shared),
`list(entry.get("evidence", []))` copies the list into a value stored in a
freshly allocated `listObj`, `{"status": ..., "evidence": ...}` allocates a
fresh `entryObj`, and `updated[topic] = ...` writes only to the copy's
address. -/

/-- A Python object relevant to `apply_skill_updates`. -/
inductive PyObj where
  | dictObj (entries : List (String × Nat))
  | entryObj (status : Option String) (evidenceAddr : Nat)
  | listObj (items : List String)
  deriving DecidableEq, Repr

/-- The heap: object at address `a` is the `a`-th element. -/
abbrev Heap := List PyObj

/-- Read the object at an address. -/
def hget (h : Heap) (a : Nat) : Option PyObj := h[a]?

/-- Overwrite the object at an existing address. -/
def hset (h : Heap) (a : Nat) (o : PyObj) : Heap := h.set a o

/-- Allocate a new object at a fresh address. -/
def halloc (h : Heap) (o : PyObj) : Heap × Nat := (h ++ [o], h.length)

/-- The key→address entries of the dict at an address. -/
def heap_entries (h : Heap) (a : Nat) : List (String × Nat) :=
  match hget h a with
  | some (PyObj.dictObj es) => es
  | _ => []

/-- The items of the list object at an address. -/
def heap_list_items (h : Heap) (a : Nat) : List String :=
  match hget h a with
  | some (PyObj.listObj xs) => xs
  | _ => []

/-- The loop body of `apply_skill_updates` on the heap: reads go through the
copy at `updatedAddr`; the evidence list and the rebuilt entry are fresh
allocations; the only write is `updated[topic] = ...` at `updatedAddr`. -/
def apply_one_update_heap (updatedAddr : Nat) (h : Heap) (item : SkillUpdateItem) : Heap :=
  match item.topic with
  | none => h
  | some topic =>
    if topic = "" then h
    else
      let entries := heap_entries h updatedAddr
      let current :=
        match alistGet entries topic with
        | some entryAddr =>
          match hget h entryAddr with
          | some (PyObj.entryObj st evAddr) => (st, heap_list_items h evAddr)
          | _ => (none, [])
        | none => (none, [])
      let evidence_list :=
        match item.evidence with
        | some e => if e = "" then current.2 else current.2 ++ [e]
        | none => current.2
      let new_status :=
        if current.1 = some "confirmed" ∧ item.status ≠ some "confirmed" then current.1
        else py_or_str item.status current.1
      let alloc₁ := halloc h (PyObj.listObj evidence_list)
      let alloc₂ := halloc alloc₁.1 (PyObj.entryObj new_status alloc₁.2)
      hset alloc₂.1 updatedAddr (PyObj.dictObj (alistSet entries topic alloc₂.2))

/-- `apply_skill_updates` on the heap: allocate the shallow dict copy, fold
the loop body over the updates, return the copy's address. -/
def apply_skill_updates_heap (h : Heap) (matrixAddr : Nat) (updates : List SkillUpdateItem) :
    Heap × Nat :=
  let entries := heap_entries h matrixAddr
  let alloc := halloc h (PyObj.dictObj entries)
  (updates.foldl (apply_one_update_heap alloc.2) alloc.1, alloc.2)

lemma hget_append_lt {h : Heap} (objs : List PyObj) {b : Nat} (hb : b < h.length) :
    hget (h ++ objs) b = hget h b := by
  simp [hget, List.getElem?_append_left hb]

lemma hget_hset_ne {h : Heap} {a b : Nat} (o : PyObj) (hne : a ≠ b) :
    hget (hset h a o) b = hget h b := by
  simp [hget, hset, List.getElem?_set_ne hne]

lemma hget_hset_self {h : Heap} {a : Nat} (o : PyObj) (ha : a < h.length) :
    hget (hset h a o) a = some o := by
  simp [hget, hset, List.getElem?_set_self ha]

lemma apply_one_heap_length (updatedAddr : Nat) (h : Heap) (item : SkillUpdateItem) :
    h.length ≤ (apply_one_update_heap updatedAddr h item).length := by
  rcases hti : item.topic with _ | topic
  · simp [apply_one_update_heap, hti]
  · by_cases h0 : topic = "" <;>
      simp [apply_one_update_heap, hti, h0, halloc, hset]

lemma apply_one_heap_frame (updatedAddr n : Nat) (h : Heap) (item : SkillUpdateItem)
    (hn : n ≤ updatedAddr) (hlen : n ≤ h.length) :
    ∀ b, b < n → hget (apply_one_update_heap updatedAddr h item) b = hget h b := by
  intro b hb
  rcases hti : item.topic with _ | topic
  · simp [apply_one_update_heap, hti]
  · by_cases h0 : topic = ""
    · simp [apply_one_update_heap, hti, h0]
    · have hne : updatedAddr ≠ b := by omega
      have hb' : b < h.length := by omega
      simp only [apply_one_update_heap, hti, halloc]
      rw [if_neg h0]
      rw [hget_hset_ne _ hne, List.append_assoc]
      exact hget_append_lt _ hb'

lemma fold_heap_frame (updatedAddr n : Nat) (us : List SkillUpdateItem) :
    ∀ h : Heap, n ≤ updatedAddr → n ≤ h.length →
      (∀ b, b < n → hget (us.foldl (apply_one_update_heap updatedAddr) h) b = hget h b)
      ∧ h.length ≤ (us.foldl (apply_one_update_heap updatedAddr) h).length := by
  induction us with
  | nil => exact fun h _ _ => ⟨fun b _ => rfl, le_refl _⟩
  | cons i rest ih =>
    intro h hn hlen
    have hsteplen := apply_one_heap_length updatedAddr h i
    have hrest := ih (apply_one_update_heap updatedAddr h i) hn (le_trans hlen hsteplen)
    refine ⟨fun b hb => ?_, le_trans hsteplen hrest.2⟩
    calc hget ((i :: rest).foldl (apply_one_update_heap updatedAddr) h) b
        = hget (apply_one_update_heap updatedAddr h i) b := hrest.1 b hb
      _ = hget h b := apply_one_heap_frame updatedAddr n h i hn hlen b hb

/-- Look a topic up in the dict object at address `d`. -/
def dict_lookup_at (h : Heap) (d : Nat) (t : String) : Option Nat :=
  alistGet (heap_entries h d) t

lemma heap_entries_hset_dict (h : Heap) (a : Nat) (es : List (String × Nat))
    (ha : a < h.length) :
    heap_entries (hset h a (PyObj.dictObj es)) a = es := by
  simp [heap_entries, hget_hset_self _ ha]

lemma dict_lookup_preserved (updatedAddr : Nat) (h : Heap) (i : SkillUpdateItem) (t : String)
    (hlt : updatedAddr < h.length) (hit : ¬(i.topic = some t ∧ t ≠ "")) :
    dict_lookup_at (apply_one_update_heap updatedAddr h i) updatedAddr t
      = dict_lookup_at h updatedAddr t := by
  rcases hti : i.topic with _ | topic
  · simp [apply_one_update_heap, hti]
  · by_cases h0 : topic = ""
    · simp [apply_one_update_heap, hti, h0]
    · have htt : topic ≠ t := by
        intro hEq
        exact hit ⟨by rw [hti, hEq], by rw [← hEq]; exact h0⟩
      unfold dict_lookup_at
      simp only [apply_one_update_heap, hti, halloc]
      rw [if_neg h0]
      rw [heap_entries_hset_dict _ _ _ (by simp; omega)]
      exact alistGet_alistSet_ne _ _ _ _ htt

lemma dict_lookup_installed (updatedAddr : Nat) (h : Heap) (i : SkillUpdateItem)
    {topic : String} (hlt : updatedAddr < h.length) (hti : i.topic = some topic)
    (h0 : topic ≠ "") :
    dict_lookup_at (apply_one_update_heap updatedAddr h i) updatedAddr topic
      = some (h.length + 1) := by
  unfold dict_lookup_at
  simp only [apply_one_update_heap, hti, halloc]
  rw [if_neg h0]
  rw [heap_entries_hset_dict _ _ _ (by simp; omega)]
  rw [alistGet_alistSet_self]
  simp

lemma fold_heap_fresh (updatedAddr : Nat) (us : List SkillUpdateItem) :
    ∀ (h : Heap) (t : String), updatedAddr < h.length →
      ((∃ item ∈ us, item.topic = some t ∧ t ≠ "") ∨
        (∃ a, dict_lookup_at h updatedAddr t = some a ∧ updatedAddr < a)) →
      ∃ a, dict_lookup_at (us.foldl (apply_one_update_heap updatedAddr) h) updatedAddr t = some a
        ∧ updatedAddr < a := by
  induction us with
  | nil =>
    intro h t _ hd
    rcases hd with ⟨i, hi, _⟩ | ha
    · exact absurd hi (List.not_mem_nil _)
    · simpa using ha
  | cons i rest ih =>
    intro h t hlt hd
    have hlen' : updatedAddr < (apply_one_update_heap updatedAddr h i).length :=
      lt_of_lt_of_le hlt (apply_one_heap_length updatedAddr h i)
    by_cases hit : i.topic = some t ∧ t ≠ ""
    · obtain ⟨hti, ht0⟩ := hit
      refine ih (apply_one_update_heap updatedAddr h i) t hlen'
        (Or.inr ⟨h.length + 1, ?_, by omega⟩)
      exact dict_lookup_installed updatedAddr h i hlt hti ht0
    · rcases hd with ⟨j, hj, hjt⟩ | ⟨a, ha, hagt⟩
      · rcases List.mem_cons.mp hj with rfl | hjrest
        · exact absurd hjt hit
        · exact ih (apply_one_update_heap updatedAddr h i) t hlen' (Or.inl ⟨j, hjrest, hjt⟩)
      · refine ih (apply_one_update_heap updatedAddr h i) t hlen' (Or.inr ⟨a, ?_, hagt⟩)
        rw [dict_lookup_preserved updatedAddr h i t hlt hit]
        exact ha

/-- C10: `apply_skill_updates` never mutates its input.  On the heap model:
every address that existed before the call holds the same object afterwards
(so the original mapping, its entry records and their evidence lists are all
unchanged), the returned mapping lives at a fresh address, and every topic
touched by an update maps, in the result, to a freshly allocated entry
record. -/
theorem apply_skill_updates_no_mutation (h : Heap) (matrixAddr : Nat)
    (us : List SkillUpdateItem) :
    (∀ b, b < h.length → hget (apply_skill_updates_heap h matrixAddr us).1 b = hget h b)
    ∧ (apply_skill_updates_heap h matrixAddr us).2 = h.length
    ∧ (∀ t, (∃ item ∈ us, item.topic = some t ∧ t ≠ "") →
        ∃ entryAddr,
          dict_lookup_at (apply_skill_updates_heap h matrixAddr us).1
              (apply_skill_updates_heap h matrixAddr us).2 t = some entryAddr
          ∧ h.length < entryAddr) := by
  refine ⟨?_, rfl, ?_⟩
  · intro b hb
    have hfold := fold_heap_frame h.length h.length us
      (h ++ [PyObj.dictObj (heap_entries h matrixAddr)]) (le_refl _) (by simp)
    calc hget (apply_skill_updates_heap h matrixAddr us).1 b
        = hget (h ++ [PyObj.dictObj (heap_entries h matrixAddr)]) b := hfold.1 b hb
      _ = hget h b := hget_append_lt _ hb
  · rintro t ⟨item, hmem, hprop⟩
    exact fold_heap_fresh h.length us (h ++ [PyObj.dictObj (heap_entries h matrixAddr)]) t
      (by simp) (Or.inl ⟨item, hmem, hprop⟩)

/-- A concrete three-object heap for the C10 witness: an evidence list at 0,
an entry at 1 pointing to it, and the matrix dict at 2. -/
def exampleHeap : Heap :=
  [PyObj.listObj ["x"], PyObj.entryObj (some "gap") 0, PyObj.dictObj [("sql_joins", 1)]]

/-- A concrete update list for the C10 witness. -/
def exampleUpdates : List SkillUpdateItem :=
  [SkillUpdateItem.mk (some "sql_joins") (some "confirmed") (some "e2")]

/-- Witness for C10 at the concrete heap: the pre-existing entry object at
address 1 is unchanged, and the updated topic's entry in the result is a
fresh address. -/
theorem apply_skill_updates_no_mutation_witness :
    hget (apply_skill_updates_heap exampleHeap 2 exampleUpdates).1 1 = hget exampleHeap 1
    ∧ ∃ entryAddr,
        dict_lookup_at (apply_skill_updates_heap exampleHeap 2 exampleUpdates).1
            (apply_skill_updates_heap exampleHeap 2 exampleUpdates).2 "sql_joins"
          = some entryAddr
        ∧ exampleHeap.length < entryAddr :=
  ⟨(apply_skill_updates_no_mutation exampleHeap 2 exampleUpdates).1 1 (by decide),
   (apply_skill_updates_no_mutation exampleHeap 2 exampleUpdates).2.2 "sql_joins"
     ⟨SkillUpdateItem.mk (some "sql_joins") (some "confirmed") (some "e2"),
      by decide, by decide, by decide⟩⟩

end Coach
